import Mathlib

/-!
Verification of `xt-imager` (`src/xt_imager.py`) against its specification.

The development is a shallow embedding of the program:

* `conn_wait_for_any` embeds the Python function of the same name
  (lines 230-241): the serial connection is modelled by the list of
  characters the device will deliver, in order; once that list is
  exhausted every further one-byte read returns no data, which is
  exactly the situation in which the Python code raises `TimeoutError`.
  The error value carries the awaited substrings structurally, matching
  the f-string `"Timeout waiting for `{expect}` from the device"`.
* `do_flash_image` embeds the function of the same name (lines 107-219).
  Its observable behaviour is recorded as a trace of events `Ev`: bytes
  written to the serial port (`Ev.send`), waits on the serial port
  (`Ev.wait`), creation and removal of the chunk file in the tftp root
  (`Ev.fileWrite` / `Ev.fileRemove`), and the closing of the image file
  and of the serial connection (`Ev.closeImg` / `Ev.closeConn`).
  The external `lzma.compress(data, format=lzma.FORMAT_ALONE, preset=1)`
  is a parameter `compress` of the model, and the image file object
  (`open(...)` for raw images, `lzma.open(...)` for `.xz` images) is
  modelled by the list of bytes its `read` calls will deliver: both
  variants return up to `chunk_size_in_bytes` bytes per read, fewer
  only at end of stream and empty once exhausted, so a single list
  models either variant; the loop body (lines 163-208) is identical for
  the two variants.  Progress printing to stdout (lines 196-208) and
  the `verbose` echo of received bytes are not modelled: they affect no
  claim.
* `select_tftp_root` embeds the `-t` handling in `main` (lines 66-80);
  the filesystem's `os.path.isdir` is a parameter, and applying it to a
  `None` value raises `TypeError` in Python, modelled by
  `MainErr.typeError`.
-/

/-- Python substring containment `needle in hay` for the receive buffer. -/
def isSubOf (needle : String) (hay : List Char) : Bool :=
  (List.range (hay.length + 1)).any fun i => needle.toList.isPrefixOf (hay.drop i)

/-- Does any of the expected strings occur in the buffer?  This is the
negation of the Python loop guard `all([x not in rcv_str for x in expect])`. -/
def anyMatch (expect : List String) (buf : List Char) : Bool :=
  expect.any fun x => isSubOf x buf

/-- Error raised by `conn_wait_for_any`; the payload records the awaited
substrings, as the Python `TimeoutError` message does. -/
inductive ConnError where
  | timeout (expect : List String)
deriving DecidableEq, Repr

/-- The read loop of `conn_wait_for_any`: `rcv` is `rcv_str`, the input list
is the remaining bytes the device will deliver.  As in the source, the guard
is evaluated before each one-byte read, and a read that yields no data (here:
exhausted input) raises the timeout error. -/
def waitGo (expect : List String) : List Char → List Char → Except ConnError (List Char × List Char)
  | [], rcv =>
      if expect.all (fun x => !(isSubOf x rcv)) then
        Except.error (ConnError.timeout expect)
      else Except.ok (rcv, [])
  | c :: rest, rcv =>
      if expect.all (fun x => !(isSubOf x rcv)) then
        waitGo expect rest (rcv ++ [c])
      else Except.ok (rcv, c :: rest)

/-- `conn_wait_for_any` (lines 230-241): the receive buffer starts empty on
every call (`rcv_str = ""`).  On success it returns the accumulated buffer
and the part of the device's byte stream that was not consumed. -/
def conn_wait_for_any (input : List Char) (expect : List String) :
    Except ConnError (List Char × List Char) :=
  waitGo expect input []

/- ## Constants of `do_flash_image` (lines 113, 127-134) -/

def uboot_prompt : String := "=>"

def hit_any_key : String := "Hit any key to stop autoboot:"

def base_addr : Nat := 0x0

def mmc_device : Nat := 1

def mmc_part : Nat := 0

def mmc_block_size : Nat := 512

def chunk_filename : String := "chunk.bin"

def chunk_size_in_bytes : Nat := 20 * 1024 * 1024

/-- The fixed staging RAM address used by the `tftp` command (line 174). -/
def staging_addr : Nat := 0x58000000

/-- The fixed load RAM address used by `lzmadec` and `mmc write`
(lines 179, 188). -/
def load_addr : Nat := 0x48000000

/-- Python `f"{n:X}"`: uppercase hexadecimal without leading zeros.
Digit-accumulator loop; the fuel argument only bounds the recursion and is
never exhausted when it starts at `n + 1`. -/
def hexDigitU (n : Nat) : Char :=
  if n < 10 then Char.ofNat (48 + n) else Char.ofNat (55 + n)

def toHexCore : Nat → Nat → List Char → List Char
  | 0, _, ds => ds
  | fuel + 1, n, ds =>
      let ds' := hexDigitU (n % 16) :: ds
      if n / 16 = 0 then ds' else toHexCore fuel (n / 16) ds'

def toHexU (n : Nat) : String := String.mk (toHexCore (n + 1) n [])

/-- `chunk_size_in_blocks` computation (lines 184-186):
`len(data) // 512`, plus one if `len(data) % 512` is nonzero. -/
def blocksOf (n : Nat) : Nat :=
  n / mmc_block_size + (if n % mmc_block_size ≠ 0 then 1 else 0)

/- ## Command strings (the f-strings of lines 147-190) -/

def env_serverip_cmd (ip : String) : String := "env set serverip " ++ ip ++ "\r"

def env_ipaddr_cmd (ip : String) : String := "env set ipaddr " ++ ip ++ "\r"

def mmc_dev_cmd : String :=
  "mmc dev " ++ Nat.repr mmc_device ++ " " ++ Nat.repr mmc_part ++ "\r"

def tftp_cmd : String := "tftp 0x58000000 " ++ chunk_filename ++ "\r"

def lzmadec_cmd : String := "lzmadec 0x58000000 0x48000000\r"

def mmc_write_cmd (bs nb : Nat) : String :=
  "mmc write 0x48000000 0x" ++ toHexU bs ++ " 0x" ++ toHexU nb ++ "\r"

def bytes_transferred_marker (n : Nat) : String :=
  "Bytes transferred = " ++ Nat.repr n

def uncompressed_size_marker (n : Nat) : String :=
  "Uncompressed size: " ++ Nat.repr n

def blocks_written_marker (n : Nat) : String :=
  Nat.repr n ++ " blocks written: OK"

/- ## The event trace and session state -/

/-- Observable events of one flashing session. -/
inductive Ev where
  | send (cmd : String)
  | wait (expect : List String)
  | fileWrite (content : List Nat)
  | fileRemove
  | closeImg
  | closeConn
deriving DecidableEq, Repr

/-- Session state: the unread part of the device's byte stream, the trace of
events so far, the current content of `<tftp_root>/chunk.bin` (`none` when
the file does not exist), and the two bookkeeping counters of the source. -/
structure St where
  input : List Char
  trace : List Ev
  file : Option (List Nat)
  bytes_sent : Nat
  block_start : Nat
deriving DecidableEq, Repr

/-- Final outcome of a session: normal return, a propagated `TimeoutError`
from a wait, or the `FileNotFoundError` that `os.remove` raises when the
chunk file does not exist. -/
inductive Outcome where
  | success
  | timeout (expect : List String)
  | fileNotFound
deriving DecidableEq, Repr

/-- Result of the embedded `do_flash_image`. -/
structure FlashResult where
  trace : List Ev
  file : Option (List Nat)
  bytes_sent : Nat
  block_start : Nat
  outcome : Outcome
deriving DecidableEq, Repr

/-- Command-line inputs that `do_flash_image` consults (besides the image). -/
structure Args where
  serverip : Option String
  ipaddr : Option String
  verbose : Bool
deriving DecidableEq, Repr

/-- `conn_send` (line 244): write the command bytes to the serial port. -/
def sendSt (cmd : String) (s : St) : St :=
  { s with trace := s.trace ++ [Ev.send cmd] }

/-- A call of `conn_wait_for_any` inside `do_flash_image`: consumes input on
success; on timeout the whole remaining input was consumed and the
`TimeoutError` escapes with the state at that point. -/
def waitSt (expect : List String) (s : St) : Except (Outcome × St) St :=
  match conn_wait_for_any s.input expect with
  | Except.error _ =>
      Except.error (Outcome.timeout expect,
        { s with input := [], trace := s.trace ++ [Ev.wait expect] })
  | Except.ok (_, rest) =>
      Except.ok { s with input := rest, trace := s.trace ++ [Ev.wait expect] }

/-- Boot handshake (lines 117-122): send CR, wait for prompt or autoboot
countdown, send CR again (unconditionally, as in the source), wait for the
prompt. -/
def handshakeSt (s : St) : Except (Outcome × St) St :=
  (waitSt [uboot_prompt, hit_any_key] (sendSt "\r" s)).bind fun s1 =>
    waitSt [uboot_prompt] (sendSt "\r" s1)

/-- One optional `env set` command (lines 146-152): skipped when the option
was not supplied (`args.serverip` / `args.ipaddr` is falsy), otherwise sent
and followed by a prompt wait. -/
def optEnvStep (o : Option String) (mk : String → String) (s : St) :
    Except (Outcome × St) St :=
  match o with
  | none => Except.ok s
  | some ip => waitSt [uboot_prompt] (sendSt (mk ip) s)

/-- One-shot setup after the handshake (lines 146-156): optional
`env set serverip` / `env set ipaddr`, then `mmc dev`, each followed by a
prompt wait. -/
def envSetup (args : Args) (s : St) : Except (Outcome × St) St :=
  (optEnvStep args.serverip env_serverip_cmd s).bind fun s1 =>
  (optEnvStep args.ipaddr env_ipaddr_cmd s1).bind fun s2 =>
  waitSt [uboot_prompt] (sendSt mmc_dev_cmd s2)

/-- Everything of `do_flash_image` that precedes the `try` block, except for
opening the connection and the image file. -/
def setupPhase (args : Args) (s : St) : Except (Outcome × St) St :=
  (handshakeSt s).bind (envSetup args)

/-- The loop body for one non-empty chunk `data` (lines 169-194): write the
compressed chunk to the chunk file, `tftp` it to the staging address, wait
for the byte count and the prompt, `lzmadec` it to the load address, wait
for the uncompressed size and the prompt, `mmc write` it, wait for the block
count and the prompt, then advance the two counters. -/
def flashChunk (compress : List Nat → List Nat) (data : List Nat) (s : St) :
    Except (Outcome × St) St :=
  let data_packed := compress data
  let s0 : St := { s with file := some data_packed,
                          trace := s.trace ++ [Ev.fileWrite data_packed] }
  (waitSt [bytes_transferred_marker data_packed.length] (sendSt tftp_cmd s0)).bind fun s1 =>
  (waitSt [uboot_prompt] s1).bind fun s2 =>
  (waitSt [uncompressed_size_marker data.length] (sendSt lzmadec_cmd s2)).bind fun s3 =>
  (waitSt [uboot_prompt] s3).bind fun s4 =>
  (waitSt [blocks_written_marker (blocksOf data.length)]
      (sendSt (mmc_write_cmd s.block_start (blocksOf data.length)) s4)).bind fun s5 =>
  (waitSt [uboot_prompt] s5).bind fun s6 =>
  Except.ok { s6 with bytes_sent := s6.bytes_sent + data.length,
                      block_start := s6.block_start + blocksOf data.length }

/-- The transfer loop (lines 163-208).  `f_img.read(chunk_size_in_bytes)` on
the modelled stream is `take`/`drop`; the loop ends on an empty read.  The
fuel argument only bounds the recursion: since every executed iteration
consumes at least one byte of the stream, fuel `stream.length + 1` (used by
`do_flash_image`) is never exhausted. -/
def flashLoop (compress : List Nat → List Nat) :
    Nat → List Nat → St → Except (Outcome × St) St
  | 0, _, s => Except.ok s
  | fuel + 1, stream, s =>
      let data := stream.take chunk_size_in_bytes
      if data = [] then Except.ok s
      else
        (flashChunk compress data s).bind fun s' =>
          flashLoop compress fuel (stream.drop chunk_size_in_bytes) s'

/-- The chunks the loop reads, as a function of the stream (same recursion
structure as `flashLoop`). -/
def chunksOf : Nat → List Nat → List (List Nat)
  | 0, _ => []
  | fuel + 1, stream =>
      let data := stream.take chunk_size_in_bytes
      if data = [] then []
      else data :: chunksOf fuel (stream.drop chunk_size_in_bytes)

/-- Chunk lengths as pure arithmetic on the stream length. -/
def natChunks : Nat → Nat → List Nat
  | 0, _ => []
  | fuel + 1, len =>
      if len = 0 then []
      else min chunk_size_in_bytes len :: natChunks fuel (len - chunk_size_in_bytes)

/-- The `finally` block and the epilogue (lines 209-219): `os.remove` the
chunk file — raising `FileNotFoundError` when it does not exist — and, only
when no exception is in flight afterwards, close the image file and the
connection. -/
def finishFlash (r : Except (Outcome × St) St) : FlashResult :=
  match r with
  | Except.ok s =>
      match s.file with
      | none =>
          { trace := s.trace, file := none, bytes_sent := s.bytes_sent,
            block_start := s.block_start, outcome := Outcome.fileNotFound }
      | some _ =>
          { trace := s.trace ++ [Ev.fileRemove, Ev.closeImg, Ev.closeConn],
            file := none, bytes_sent := s.bytes_sent,
            block_start := s.block_start, outcome := Outcome.success }
  | Except.error (e, s) =>
      match s.file with
      | none =>
          { trace := s.trace, file := none, bytes_sent := s.bytes_sent,
            block_start := s.block_start, outcome := Outcome.fileNotFound }
      | some _ =>
          { trace := s.trace ++ [Ev.fileRemove], file := none,
            bytes_sent := s.bytes_sent, block_start := s.block_start,
            outcome := e }

/-- Initial session state: empty trace, no chunk file,
`bytes_sent = 0` and `block_start = base_addr // mmc_block_size`
(lines 142-143). -/
def initSt (input : List Char) : St :=
  { input := input, trace := [], file := none, bytes_sent := 0,
    block_start := base_addr / mmc_block_size }

/-- `do_flash_image` (lines 107-219).  A failure before the `try` block
escapes without touching the chunk file; the loop is wrapped by
`finishFlash` (the `finally` block plus the closing epilogue). -/
def do_flash_image (args : Args) (compress : List Nat → List Nat)
    (stream : List Nat) (input : List Char) : FlashResult :=
  match setupPhase args (initSt input) with
  | Except.error (e, s) =>
      { trace := s.trace, file := s.file, bytes_sent := s.bytes_sent,
        block_start := s.block_start, outcome := e }
  | Except.ok s => finishFlash (flashLoop compress (stream.length + 1) stream s)

/- ## `main`: tftp-root selection (lines 66-80) -/

/-- Errors `main` can raise while selecting the tftp root: the `TypeError`
from `os.path.isdir(None)`, or the dedicated
`Exception("-t parameter is not external TFTP root.")`. -/
inductive MainErr where
  | typeError
  | configError (msg : String)
deriving DecidableEq, Repr

/-- The `-t` handling of `main` (lines 66-80): `args.tftp` is `none` when
the option is absent, `some "AUTO"` for the bare flag, `some p` for an
explicit path.  `fs` is the filesystem's `os.path.isdir`; calling it on a
`None` value raises `TypeError`. -/
def select_tftp_root (fs : String → Bool) (cwd : String) (tftp : Option String) :
    Except MainErr String :=
  if tftp = some "AUTO" then Except.ok cwd
  else
    match tftp with
    | none => Except.error MainErr.typeError
    | some p =>
        if fs p then Except.ok p
        else Except.error (MainErr.configError "-t parameter is not external TFTP root.")

/-- `main` after argument parsing: select the tftp root, then flash.  The
`flash` parameter stands for the `do_flash_image` call with the remaining
arguments already supplied. -/
def run_main (fs : String → Bool) (cwd : String) (tftp : Option String)
    (flash : String → FlashResult) : Except MainErr FlashResult :=
  (select_tftp_root fs cwd tftp).map flash

/- ## Auxiliary observers used by the theorems -/

/-- Replay the file events of a trace to obtain the chunk-file content after
it (`none` = the file does not exist). -/
def applyEv (f : Option (List Nat)) : Ev → Option (List Nat)
  | Ev.fileWrite c => some c
  | Ev.fileRemove => none
  | _ => f

def fileAfterFrom (f : Option (List Nat)) : List Ev → Option (List Nat)
  | [] => f
  | e :: rest => fileAfterFrom (applyEv f e) rest

def fileAfter (t : List Ev) : Option (List Nat) := fileAfterFrom none t

/-- Serial-console events (sends and waits). -/
def isConnEv : Ev → Bool
  | Ev.send _ => true
  | Ev.wait _ => true
  | _ => false

/-- Events that close a resource. -/
def isCloseEv : Ev → Bool
  | Ev.closeImg => true
  | Ev.closeConn => true
  | _ => false

/-- The chunk-file contents written along a trace, in order. -/
def writesOf (t : List Ev) : List (List Nat) :=
  t.filterMap fun e =>
    match e with
    | Ev.fileWrite c => some c
    | _ => none

def isOkE {ε α : Type} : Except ε α → Bool
  | Except.ok _ => true
  | Except.error _ => false

deriving instance DecidableEq for Except

/-- The event block one successful chunk appends to the trace, for a chunk
`data` flashed while `block_start = bs`. -/
def chunkEvs (compress : List Nat → List Nat) (data : List Nat) (bs : Nat) : List Ev :=
  [Ev.fileWrite (compress data),
   Ev.send tftp_cmd,
   Ev.wait [bytes_transferred_marker (compress data).length],
   Ev.wait [uboot_prompt],
   Ev.send lzmadec_cmd,
   Ev.wait [uncompressed_size_marker data.length],
   Ev.wait [uboot_prompt],
   Ev.send (mmc_write_cmd bs (blocksOf data.length)),
   Ev.wait [blocks_written_marker (blocksOf data.length)],
   Ev.wait [uboot_prompt]]

/-- Every point of a trace at which the `tftp` command is sent has the chunk
file present (claim C6's issuance condition). -/
def TftpInv (t : List Ev) : Prop :=
  ∀ pre post, t = pre ++ Ev.send tftp_cmd :: post → fileAfter pre ≠ none

/-- The session-state invariant tying the tracked chunk-file content to the
trace. -/
def StInv (s : St) : Prop := s.file = fileAfter s.trace ∧ TftpInv s.trace

/- ## C1 lemmas -/

theorem waitCond_eq (expect : List String) (rcv : List Char) :
    (expect.all fun x => !(isSubOf x rcv)) = !(anyMatch expect rcv) := by
  unfold anyMatch
  induction expect with
  | nil => rfl
  | cons a l ih => simp [List.all_cons, List.any_cons, Bool.not_or, ih]

theorem waitGo_ok_spec (expect : List String) :
    ∀ (input rcv buf rest : List Char),
      waitGo expect input rcv = Except.ok (buf, rest) →
      (∃ t, buf = rcv ++ t ∧ t ++ rest = input) ∧
      anyMatch expect buf = true ∧
      (∀ j, rcv.length ≤ j → j < buf.length → anyMatch expect (buf.take j) = false) := by
  intro input
  induction input with
  | nil =>
      intro rcv buf rest h
      unfold waitGo at h
      by_cases hc : (expect.all fun x => !(isSubOf x rcv)) = true
      · rw [if_pos hc] at h; cases h
      · rw [if_neg hc] at h
        injection h with h'
        injection h' with h1 h2
        subst h1; subst h2
        rw [waitCond_eq] at hc
        simp only [Bool.not_eq_true'] at hc
        push_neg at hc
        refine ⟨⟨[], by simp, by simp⟩, by simpa using hc, ?_⟩
        intro j hj1 hj2
        omega
  | cons c cs ih =>
      intro rcv buf rest h
      unfold waitGo at h
      by_cases hc : (expect.all fun x => !(isSubOf x rcv)) = true
      · rw [if_pos hc] at h
        obtain ⟨⟨t, hbuf, hin⟩, hm, hmin⟩ := ih (rcv ++ [c]) buf rest h
        have hc' : anyMatch expect rcv = false := by
          rw [waitCond_eq] at hc
          simpa using hc
        refine ⟨⟨c :: t, by simp [hbuf], by simp [← hin]⟩, hm, ?_⟩
        intro j hj1 hj2
        rcases Nat.eq_or_lt_of_le hj1 with hj | hj
        · have hbuf' : buf = rcv ++ (c :: t) := by simp [hbuf]
          rw [← hj, hbuf', List.take_left]
          exact hc'
        · apply hmin j _ hj2
          simpa using hj
      · rw [if_neg hc] at h
        injection h with h'
        injection h' with h1 h2
        subst h1; subst h2
        rw [waitCond_eq] at hc
        simp only [Bool.not_eq_true'] at hc
        push_neg at hc
        refine ⟨⟨[], by simp, by simp⟩, by simpa using hc, ?_⟩
        intro j hj1 hj2
        omega

theorem waitGo_err_spec (expect : List String) :
    ∀ (input rcv : List Char) (e : ConnError),
      waitGo expect input rcv = Except.error e →
      e = ConnError.timeout expect ∧
      ∀ k, k ≤ input.length → anyMatch expect (rcv ++ input.take k) = false := by
  intro input
  induction input with
  | nil =>
      intro rcv e h
      unfold waitGo at h
      by_cases hc : (expect.all fun x => !(isSubOf x rcv)) = true
      · rw [if_pos hc] at h
        injection h with h'
        rw [waitCond_eq] at hc
        refine ⟨h'.symm, ?_⟩
        intro k hk
        have hk0 : k = 0 := by simpa using hk
        subst hk0
        simpa using hc
      · rw [if_neg hc] at h; cases h
  | cons c cs ih =>
      intro rcv e h
      unfold waitGo at h
      by_cases hc : (expect.all fun x => !(isSubOf x rcv)) = true
      · rw [if_pos hc] at h
        obtain ⟨he, hk⟩ := ih (rcv ++ [c]) e h
        refine ⟨he, ?_⟩
        intro k hkle
        match k with
        | 0 =>
            rw [waitCond_eq] at hc
            simpa using hc
        | k' + 1 =>
            have := hk k' (by simpa using hkle)
            simpa using this
      · rw [if_neg hc] at h; cases h

/-- C1: `conn_wait_for_any` with a non-empty expectation list returns exactly
when one of the awaited substrings first appears anywhere in the buffer
accumulated from this call's one-byte reads (the buffer starts empty: the
returned buffer is a prefix of the device's byte stream), and when a
one-byte read yields no data before any match it raises a timeout error
carrying the awaited substrings. -/
theorem claim_C1_conn_wait_for_any (input : List Char) (expect : List String)
    (hne : expect ≠ []) :
    (∀ buf rest, conn_wait_for_any input expect = Except.ok (buf, rest) →
        buf ++ rest = input ∧ anyMatch expect buf = true ∧
        ∀ j, j < buf.length → anyMatch expect (buf.take j) = false) ∧
    (∀ e, conn_wait_for_any input expect = Except.error e →
        e = ConnError.timeout expect ∧
        ∀ k, k ≤ input.length → anyMatch expect (input.take k) = false) := by
  constructor
  · intro buf rest h
    obtain ⟨⟨t, hbuf, hin⟩, hm, hmin⟩ := waitGo_ok_spec expect input [] buf rest h
    simp only [List.nil_append] at hbuf
    subst hbuf
    exact ⟨hin, hm, fun j hj => hmin j (Nat.zero_le j) hj⟩
  · intro e h
    obtain ⟨he, hk⟩ := waitGo_err_spec expect input [] e h
    exact ⟨he, fun k hkle => by simpa using hk k hkle⟩

theorem claim_C1_witness :
    "ab=>".toList ++ "cd".toList = "ab=>cd".toList ∧
    anyMatch ["=>"] "ab=>".toList = true := by
  have h := (claim_C1_conn_wait_for_any "ab=>cd".toList ["=>"] (by decide)).1
    "ab=>".toList "cd".toList (by decide)
  exact ⟨h.1, h.2.1⟩

/- ## Step lemmas for the orchestrator -/

theorem exceptBind_ok {ε α β : Type} (x : Except ε α) (f : α → Except ε β) (b : β)
    (h : x.bind f = Except.ok b) : ∃ a, x = Except.ok a ∧ f a = Except.ok b := by
  cases x with
  | error e => simp [Except.bind] at h
  | ok a => exact ⟨a, rfl, by simpa [Except.bind] using h⟩

theorem exceptBind_err {ε α β : Type} (x : Except ε α) (f : α → Except ε β) (E : ε)
    (h : x.bind f = Except.error E) :
    x = Except.error E ∨ ∃ a, x = Except.ok a ∧ f a = Except.error E := by
  cases x with
  | error e => left; simpa [Except.bind] using h
  | ok a => right; exact ⟨a, rfl, by simpa [Except.bind] using h⟩

theorem waitSt_ok_fields (expect : List String) (s s1 : St)
    (h : waitSt expect s = Except.ok s1) :
    s1.trace = s.trace ++ [Ev.wait expect] ∧ s1.file = s.file ∧
    s1.bytes_sent = s.bytes_sent ∧ s1.block_start = s.block_start := by
  unfold waitSt at h
  cases hc : conn_wait_for_any s.input expect with
  | error e => rw [hc] at h; cases h
  | ok p =>
      rw [hc] at h
      cases p with
      | mk buf rest =>
          injection h with h'
          subst h'
          simp

theorem waitSt_err_fields (expect : List String) (s s1 : St) (e : Outcome)
    (h : waitSt expect s = Except.error (e, s1)) :
    e = Outcome.timeout expect ∧
    s1.trace = s.trace ++ [Ev.wait expect] ∧ s1.file = s.file ∧
    s1.bytes_sent = s.bytes_sent ∧ s1.block_start = s.block_start := by
  unfold waitSt at h
  cases hc : conn_wait_for_any s.input expect with
  | error e' =>
      rw [hc] at h
      injection h with h'
      injection h' with h1 h2
      subst h1
      rw [← h2]
      simp
  | ok p => rw [hc] at h; cases p; cases h

theorem flashChunk_ok_spec (compress : List Nat → List Nat) (data : List Nat)
    (s s' : St) (h : flashChunk compress data s = Except.ok s') :
    s'.trace = s.trace ++ chunkEvs compress data s.block_start ∧
    s'.file = some (compress data) ∧
    s'.bytes_sent = s.bytes_sent + data.length ∧
    s'.block_start = s.block_start + blocksOf data.length := by
  unfold flashChunk at h
  obtain ⟨s1, h1, h⟩ := exceptBind_ok _ _ _ h
  obtain ⟨s2, h2, h⟩ := exceptBind_ok _ _ _ h
  obtain ⟨s3, h3, h⟩ := exceptBind_ok _ _ _ h
  obtain ⟨s4, h4, h⟩ := exceptBind_ok _ _ _ h
  obtain ⟨s5, h5, h⟩ := exceptBind_ok _ _ _ h
  obtain ⟨s6, h6, h⟩ := exceptBind_ok _ _ _ h
  injection h with h'
  subst h'
  obtain ⟨t1, f1, b1, k1⟩ := waitSt_ok_fields _ _ _ h1
  obtain ⟨t2, f2, b2, k2⟩ := waitSt_ok_fields _ _ _ h2
  obtain ⟨t3, f3, b3, k3⟩ := waitSt_ok_fields _ _ _ h3
  obtain ⟨t4, f4, b4, k4⟩ := waitSt_ok_fields _ _ _ h4
  obtain ⟨t5, f5, b5, k5⟩ := waitSt_ok_fields _ _ _ h5
  obtain ⟨t6, f6, b6, k6⟩ := waitSt_ok_fields _ _ _ h6
  simp only [sendSt] at t1 f1 b1 k1 t3 f3 b3 k3 t5 f5 b5 k5
  refine ⟨?_, ?_, ?_, ?_⟩
  · simp [t6, t5, t4, t3, t2, t1, chunkEvs]
  · simp [f6, f5, f4, f3, f2, f1]
  · simp [b6, b5, b4, b3, b2, b1]
  · simp [k6, k5, k4, k3, k2, k1]

theorem flashChunk_err_spec (compress : List Nat → List Nat) (data : List Nat)
    (s s1 : St) (e : Outcome) (h : flashChunk compress data s = Except.error (e, s1)) :
    (∃ ex, e = Outcome.timeout ex) ∧
    s1.file = some (compress data) ∧ s1.bytes_sent = s.bytes_sent ∧
    s1.block_start = s.block_start ∧
    ∃ t, s1.trace = s.trace ++ Ev.fileWrite (compress data) :: t ∧
      ∀ ev ∈ t, isConnEv ev = true := by
  unfold flashChunk at h
  rcases exceptBind_err _ _ _ h with h1 | ⟨a1, h1, h⟩
  · obtain ⟨he, t1, f1, b1, k1⟩ := waitSt_err_fields _ _ _ _ h1
    simp only [sendSt] at t1 f1 b1 k1
    refine ⟨⟨_, he⟩, by simp [f1], by simp [b1], by simp [k1], ?_⟩
    refine ⟨[Ev.send tftp_cmd, Ev.wait [bytes_transferred_marker (compress data).length]], by simp [t1], by simp [List.forall_mem_cons, isConnEv]⟩
  · rcases exceptBind_err _ _ _ h with h2 | ⟨a2, h2, h⟩
    · obtain ⟨he, t2, f2, b2, k2⟩ := waitSt_err_fields _ _ _ _ h2
      obtain ⟨t1, f1, b1, k1⟩ := waitSt_ok_fields _ _ _ h1
      simp only [sendSt] at t1 f1 b1 k1
      refine ⟨⟨_, he⟩, by simp [f2, f1], by simp [b2, b1], by simp [k2, k1], ?_⟩
      refine ⟨[Ev.send tftp_cmd, Ev.wait [bytes_transferred_marker (compress data).length],
        Ev.wait [uboot_prompt]], by simp [t2, t1], by simp [List.forall_mem_cons, isConnEv]⟩
    · rcases exceptBind_err _ _ _ h with h3 | ⟨a3, h3, h⟩
      · obtain ⟨he, t3, f3, b3, k3⟩ := waitSt_err_fields _ _ _ _ h3
        obtain ⟨t1, f1, b1, k1⟩ := waitSt_ok_fields _ _ _ h1
        obtain ⟨t2, f2, b2, k2⟩ := waitSt_ok_fields _ _ _ h2
        simp only [sendSt] at t1 f1 b1 k1 t3 f3 b3 k3
        refine ⟨⟨_, he⟩, by simp [f3, f2, f1], by simp [b3, b2, b1], by simp [k3, k2, k1], ?_⟩
        refine ⟨[Ev.send tftp_cmd, Ev.wait [bytes_transferred_marker (compress data).length],
          Ev.wait [uboot_prompt], Ev.send lzmadec_cmd,
          Ev.wait [uncompressed_size_marker data.length]], by simp [t3, t2, t1], by simp [List.forall_mem_cons, isConnEv]⟩
      · rcases exceptBind_err _ _ _ h with h4 | ⟨a4, h4, h⟩
        · obtain ⟨he, t4, f4, b4, k4⟩ := waitSt_err_fields _ _ _ _ h4
          obtain ⟨t1, f1, b1, k1⟩ := waitSt_ok_fields _ _ _ h1
          obtain ⟨t2, f2, b2, k2⟩ := waitSt_ok_fields _ _ _ h2
          obtain ⟨t3, f3, b3, k3⟩ := waitSt_ok_fields _ _ _ h3
          simp only [sendSt] at t1 f1 b1 k1 t3 f3 b3 k3
          refine ⟨⟨_, he⟩, by simp [f4, f3, f2, f1], by simp [b4, b3, b2, b1],
            by simp [k4, k3, k2, k1], ?_⟩
          refine ⟨[Ev.send tftp_cmd, Ev.wait [bytes_transferred_marker (compress data).length],
            Ev.wait [uboot_prompt], Ev.send lzmadec_cmd,
            Ev.wait [uncompressed_size_marker data.length], Ev.wait [uboot_prompt]],
            by simp [t4, t3, t2, t1], by simp [List.forall_mem_cons, isConnEv]⟩
        · rcases exceptBind_err _ _ _ h with h5 | ⟨a5, h5, h⟩
          · obtain ⟨he, t5, f5, b5, k5⟩ := waitSt_err_fields _ _ _ _ h5
            obtain ⟨t1, f1, b1, k1⟩ := waitSt_ok_fields _ _ _ h1
            obtain ⟨t2, f2, b2, k2⟩ := waitSt_ok_fields _ _ _ h2
            obtain ⟨t3, f3, b3, k3⟩ := waitSt_ok_fields _ _ _ h3
            obtain ⟨t4, f4, b4, k4⟩ := waitSt_ok_fields _ _ _ h4
            simp only [sendSt] at t1 f1 b1 k1 t3 f3 b3 k3 t5 f5 b5 k5
            refine ⟨⟨_, he⟩, by simp [f5, f4, f3, f2, f1], by simp [b5, b4, b3, b2, b1],
              by simp [k5, k4, k3, k2, k1], ?_⟩
            refine ⟨[Ev.send tftp_cmd, Ev.wait [bytes_transferred_marker (compress data).length],
              Ev.wait [uboot_prompt], Ev.send lzmadec_cmd,
              Ev.wait [uncompressed_size_marker data.length], Ev.wait [uboot_prompt],
              Ev.send (mmc_write_cmd s.block_start (blocksOf data.length)),
              Ev.wait [blocks_written_marker (blocksOf data.length)]],
              by simp [t5, t4, t3, t2, t1], by simp [List.forall_mem_cons, isConnEv]⟩
          · rcases exceptBind_err _ _ _ h with h6 | ⟨a6, h6, h⟩
            · obtain ⟨he, t6, f6, b6, k6⟩ := waitSt_err_fields _ _ _ _ h6
              obtain ⟨t1, f1, b1, k1⟩ := waitSt_ok_fields _ _ _ h1
              obtain ⟨t2, f2, b2, k2⟩ := waitSt_ok_fields _ _ _ h2
              obtain ⟨t3, f3, b3, k3⟩ := waitSt_ok_fields _ _ _ h3
              obtain ⟨t4, f4, b4, k4⟩ := waitSt_ok_fields _ _ _ h4
              obtain ⟨t5, f5, b5, k5⟩ := waitSt_ok_fields _ _ _ h5
              simp only [sendSt] at t1 f1 b1 k1 t3 f3 b3 k3 t5 f5 b5 k5
              refine ⟨⟨_, he⟩, by simp [f6, f5, f4, f3, f2, f1], by simp [b6, b5, b4, b3, b2, b1],
                by simp [k6, k5, k4, k3, k2, k1], ?_⟩
              refine ⟨[Ev.send tftp_cmd, Ev.wait [bytes_transferred_marker (compress data).length],
                Ev.wait [uboot_prompt], Ev.send lzmadec_cmd,
                Ev.wait [uncompressed_size_marker data.length], Ev.wait [uboot_prompt],
                Ev.send (mmc_write_cmd s.block_start (blocksOf data.length)),
                Ev.wait [blocks_written_marker (blocksOf data.length)], Ev.wait [uboot_prompt]],
                by simp [t6, t5, t4, t3, t2, t1], by simp [List.forall_mem_cons, isConnEv]⟩
            · cases h

/- ## Loop lemmas -/

theorem blocksOf_eq (n : Nat) : blocksOf n = (n + 511) / 512 := by
  unfold blocksOf mmc_block_size
  rcases Nat.eq_zero_or_pos (n % 512) with h | h
  · simp [h]
    omega
  · rw [if_pos (by omega)]
    omega

theorem chunk_size_val : chunk_size_in_bytes = 20971520 := by
  norm_num [chunk_size_in_bytes]

theorem take_chunk_nil_iff (stream : List Nat) :
    stream.take chunk_size_in_bytes = [] ↔ stream = [] := by
  rw [List.take_eq_nil_iff]
  have : chunk_size_in_bytes ≠ 0 := by rw [chunk_size_val]; omega
  tauto


theorem flashLoop_ok_book (compress : List Nat → List Nat) :
    ∀ (fuel : Nat) (stream : List Nat) (s s' : St),
      stream.length + 1 ≤ fuel →
      flashLoop compress fuel stream s = Except.ok s' →
      s'.bytes_sent = s.bytes_sent + stream.length ∧
      s'.block_start = s.block_start + (stream.length + 511) / 512 := by
  intro fuel
  induction fuel with
  | zero => intro stream s s' hf h; omega
  | succ fuel ih =>
      intro stream s s' hf h
      unfold flashLoop at h
      by_cases hd : stream.take chunk_size_in_bytes = []
      · rw [if_pos hd] at h
        injection h with h'
        subst h'
        have hstream : stream = [] := (take_chunk_nil_iff stream).1 hd
        subst hstream
        simp
      · rw [if_neg hd] at h
        obtain ⟨s1, h1, h⟩ := exceptBind_ok _ _ _ h
        obtain ⟨_, _, hb1, hk1⟩ := flashChunk_ok_spec _ _ _ _ h1
        have hlen : stream ≠ [] := fun hn => hd (by simp [hn])
        have hpos : 0 < stream.length := List.length_pos.2 hlen
        have hrec := ih (stream.drop chunk_size_in_bytes) s1 s'
          (by
            rw [List.length_drop]
            have := chunk_size_val
            omega)
          h
        rw [List.length_take] at hb1 hk1
        rw [blocksOf_eq] at hk1
        rw [List.length_drop] at hrec
        have hc := chunk_size_val
        constructor
        · rw [hrec.1, hb1]
          omega
        · rw [hrec.2, hk1]
          omega

theorem flashLoop_err_book (compress : List Nat → List Nat) :
    ∀ (fuel : Nat) (stream : List Nat) (s s1 : St) (e : Outcome),
      flashLoop compress fuel stream s = Except.error (e, s1) →
      (∃ ex, e = Outcome.timeout ex) ∧
      s1.bytes_sent ≤ s.bytes_sent + stream.length := by
  intro fuel
  induction fuel with
  | zero => intro stream s s1 e h; cases h
  | succ fuel ih =>
      intro stream s s1 e h
      unfold flashLoop at h
      by_cases hd : stream.take chunk_size_in_bytes = []
      · rw [if_pos hd] at h; cases h
      · rw [if_neg hd] at h
        rcases exceptBind_err _ _ _ h with h1 | ⟨a1, h1, h⟩
        · obtain ⟨hex, _, hb, _, _⟩ := flashChunk_err_spec _ _ _ _ _ h1
          exact ⟨hex, by omega⟩
        · obtain ⟨_, _, hb1, _⟩ := flashChunk_ok_spec _ _ _ _ h1
          obtain ⟨hex, hle⟩ := ih (stream.drop chunk_size_in_bytes) a1 s1 e h
          rw [List.length_take] at hb1
          rw [List.length_drop] at hle
          have hc := chunk_size_val
          exact ⟨hex, by omega⟩

theorem writesOf_append (t u : List Ev) : writesOf (t ++ u) = writesOf t ++ writesOf u := by
  unfold writesOf
  exact List.filterMap_append t u _

theorem writesOf_chunkEvs (compress : List Nat → List Nat) (data : List Nat) (bs : Nat) :
    writesOf (chunkEvs compress data bs) = [compress data] := by
  simp [writesOf, chunkEvs]

theorem flashLoop_writes (compress : List Nat → List Nat) :
    ∀ (fuel : Nat) (stream : List Nat) (s s' : St),
      flashLoop compress fuel stream s = Except.ok s' →
      writesOf s'.trace = writesOf s.trace ++ (chunksOf fuel stream).map compress := by
  intro fuel
  induction fuel with
  | zero =>
      intro stream s s' h
      injection h with h'
      subst h'
      simp [chunksOf]
  | succ fuel ih =>
      intro stream s s' h
      unfold flashLoop at h
      unfold chunksOf
      by_cases hd : stream.take chunk_size_in_bytes = []
      · rw [if_pos hd] at h
        injection h with h'
        subst h'
        rw [if_pos hd]
        simp
      · rw [if_neg hd] at h
        rw [if_neg hd]
        obtain ⟨s1, h1, h⟩ := exceptBind_ok _ _ _ h
        obtain ⟨ht1, _, _, _⟩ := flashChunk_ok_spec _ _ _ _ h1
        have hrec := ih (stream.drop chunk_size_in_bytes) s1 s' h
        rw [hrec, ht1, writesOf_append, writesOf_chunkEvs]
        simp

theorem natChunks_eq :
    ∀ (fuel : Nat) (stream : List Nat),
      (chunksOf fuel stream).map List.length = natChunks fuel stream.length := by
  intro fuel
  induction fuel with
  | zero => intro stream; rfl
  | succ fuel ih =>
      intro stream
      unfold chunksOf natChunks
      by_cases hd : stream.take chunk_size_in_bytes = []
      · rw [if_pos hd]
        have hstream : stream = [] := (take_chunk_nil_iff stream).1 hd
        subst hstream
        simp
      · rw [if_neg hd]
        have hlen : stream ≠ [] := fun hn => hd (by simp [hn])
        have hpos : 0 < stream.length := List.length_pos.2 hlen
        rw [if_neg (by omega)]
        simp [List.length_take, List.length_drop, ih]

/- ## Setup-phase lemmas -/

theorem ne_of_data_head (a b : String) (ha : a.data.head? ≠ b.data.head?) : a ≠ b :=
  fun h => ha (by rw [h])

theorem env_serverip_cmd_ne_tftp (ip : String) : env_serverip_cmd ip ≠ tftp_cmd := by
  apply ne_of_data_head
  have h1 : ("env set serverip ").data = 'e' :: ("nv set serverip ").data := by decide
  unfold env_serverip_cmd
  rw [String.data_append, String.data_append, h1]
  have h2 : tftp_cmd.data.head? = some 't' := by decide
  rw [h2]
  simp

theorem env_ipaddr_cmd_ne_tftp (ip : String) : env_ipaddr_cmd ip ≠ tftp_cmd := by
  apply ne_of_data_head
  have h1 : ("env set ipaddr ").data = 'e' :: ("nv set ipaddr ").data := by decide
  unfold env_ipaddr_cmd
  rw [String.data_append, String.data_append, h1]
  have h2 : tftp_cmd.data.head? = some 't' := by decide
  rw [h2]
  simp

theorem handshakeSt_ok (s s' : St) (h : handshakeSt s = Except.ok s') :
    s'.trace = s.trace ++ [Ev.send "\r", Ev.wait [uboot_prompt, hit_any_key],
      Ev.send "\r", Ev.wait [uboot_prompt]] ∧
    s'.file = s.file ∧ s'.bytes_sent = s.bytes_sent ∧ s'.block_start = s.block_start := by
  unfold handshakeSt at h
  obtain ⟨s1, h1, h⟩ := exceptBind_ok _ _ _ h
  obtain ⟨t1, f1, b1, k1⟩ := waitSt_ok_fields _ _ _ h1
  obtain ⟨t2, f2, b2, k2⟩ := waitSt_ok_fields _ _ _ h
  simp only [sendSt] at t1 f1 b1 k1 t2 f2 b2 k2
  refine ⟨?_, ?_, ?_, ?_⟩
  · simp [t2, t1]
  · simp [f2, f1]
  · simp [b2, b1]
  · simp [k2, k1]

theorem handshakeSt_err (s s1 : St) (e : Outcome)
    (h : handshakeSt s = Except.error (e, s1)) :
    (∃ ex, e = Outcome.timeout ex) ∧
    (s1.trace = s.trace ++ [Ev.send "\r", Ev.wait [uboot_prompt, hit_any_key]] ∨
     s1.trace = s.trace ++ [Ev.send "\r", Ev.wait [uboot_prompt, hit_any_key],
       Ev.send "\r", Ev.wait [uboot_prompt]]) ∧
    s1.file = s.file ∧ s1.bytes_sent = s.bytes_sent ∧ s1.block_start = s.block_start := by
  unfold handshakeSt at h
  rcases exceptBind_err _ _ _ h with h1 | ⟨a1, h1, h⟩
  · obtain ⟨he, t1, f1, b1, k1⟩ := waitSt_err_fields _ _ _ _ h1
    simp only [sendSt] at t1 f1 b1 k1
    exact ⟨⟨_, he⟩, Or.inl (by simp [t1]), by simp [f1], by simp [b1], by simp [k1]⟩
  · obtain ⟨t1, f1, b1, k1⟩ := waitSt_ok_fields _ _ _ h1
    obtain ⟨he, t2, f2, b2, k2⟩ := waitSt_err_fields _ _ _ _ h
    simp only [sendSt] at t1 f1 b1 k1 t2 f2 b2 k2
    exact ⟨⟨_, he⟩, Or.inr (by simp [t2, t1]), by simp [f2, f1], by simp [b2, b1],
      by simp [k2, k1]⟩

theorem optEnvStep_ok (o : Option String) (mk : String → String) (s s1 : St)
    (hmk : ∀ ip, mk ip ≠ tftp_cmd)
    (h : optEnvStep o mk s = Except.ok s1) :
    ∃ t, s1.trace = s.trace ++ t ∧
      (∀ ev ∈ t, isConnEv ev = true ∧ ev ≠ Ev.send tftp_cmd) ∧
      s1.file = s.file ∧ s1.bytes_sent = s.bytes_sent ∧ s1.block_start = s.block_start := by
  unfold optEnvStep at h
  cases o with
  | none =>
      injection h with h'
      subst h'
      exact ⟨[], by simp, by simp, rfl, rfl, rfl⟩
  | some ip =>
      obtain ⟨t1, f1, b1, k1⟩ := waitSt_ok_fields _ _ _ h
      simp only [sendSt] at t1 f1 b1 k1
      refine ⟨[Ev.send (mk ip), Ev.wait [uboot_prompt]], by simp [t1], ?_, f1, b1, k1⟩
      intro ev hev
      simp only [List.mem_cons, List.not_mem_nil, or_false] at hev
      rcases hev with rfl | rfl
      · exact ⟨rfl, by simp [hmk ip]⟩
      · exact ⟨rfl, by simp⟩

theorem optEnvStep_err (o : Option String) (mk : String → String) (s s1 : St) (e : Outcome)
    (hmk : ∀ ip, mk ip ≠ tftp_cmd)
    (h : optEnvStep o mk s = Except.error (e, s1)) :
    (∃ ex, e = Outcome.timeout ex) ∧
    ∃ t, s1.trace = s.trace ++ t ∧
      (∀ ev ∈ t, isConnEv ev = true ∧ ev ≠ Ev.send tftp_cmd) ∧
      s1.file = s.file ∧ s1.bytes_sent = s.bytes_sent ∧ s1.block_start = s.block_start := by
  unfold optEnvStep at h
  cases o with
  | none => cases h
  | some ip =>
      obtain ⟨he, t1, f1, b1, k1⟩ := waitSt_err_fields _ _ _ _ h
      simp only [sendSt] at t1 f1 b1 k1
      refine ⟨⟨_, he⟩, [Ev.send (mk ip), Ev.wait [uboot_prompt]], by simp [t1], ?_, f1, b1, k1⟩
      intro ev hev
      simp only [List.mem_cons, List.not_mem_nil, or_false] at hev
      rcases hev with rfl | rfl
      · exact ⟨rfl, by simp [hmk ip]⟩
      · exact ⟨rfl, by simp⟩

theorem mmc_dev_wait_ok (s s1 : St)
    (h : waitSt [uboot_prompt] (sendSt mmc_dev_cmd s) = Except.ok s1) :
    s1.trace = s.trace ++ [Ev.send mmc_dev_cmd, Ev.wait [uboot_prompt]] ∧
    s1.file = s.file ∧ s1.bytes_sent = s.bytes_sent ∧ s1.block_start = s.block_start := by
  obtain ⟨t1, f1, b1, k1⟩ := waitSt_ok_fields _ _ _ h
  simp only [sendSt] at t1 f1 b1 k1
  exact ⟨by simp [t1], f1, b1, k1⟩

theorem mmc_dev_wait_err (s s1 : St) (e : Outcome)
    (h : waitSt [uboot_prompt] (sendSt mmc_dev_cmd s) = Except.error (e, s1)) :
    (∃ ex, e = Outcome.timeout ex) ∧
    s1.trace = s.trace ++ [Ev.send mmc_dev_cmd, Ev.wait [uboot_prompt]] ∧
    s1.file = s.file ∧ s1.bytes_sent = s.bytes_sent ∧ s1.block_start = s.block_start := by
  obtain ⟨he, t1, f1, b1, k1⟩ := waitSt_err_fields _ _ _ _ h
  simp only [sendSt] at t1 f1 b1 k1
  exact ⟨⟨_, he⟩, by simp [t1], f1, b1, k1⟩

theorem handshake_evs_good :
    ∀ ev ∈ [Ev.send "\r", Ev.wait [uboot_prompt, hit_any_key],
      Ev.send "\r", Ev.wait [uboot_prompt]],
      isConnEv ev = true ∧ ev ≠ Ev.send tftp_cmd := by
  decide

theorem handshake_evs_good_half :
    ∀ ev ∈ [Ev.send "\r", Ev.wait [uboot_prompt, hit_any_key]],
      isConnEv ev = true ∧ ev ≠ Ev.send tftp_cmd := by
  decide

theorem mmc_dev_evs_good :
    ∀ ev ∈ [Ev.send mmc_dev_cmd, Ev.wait [uboot_prompt]],
      isConnEv ev = true ∧ ev ≠ Ev.send tftp_cmd := by
  decide

theorem setupPhase_ok (args : Args) (s s' : St) (h : setupPhase args s = Except.ok s') :
    ∃ t, s'.trace = s.trace ++ t ∧
      (∀ ev ∈ t, isConnEv ev = true ∧ ev ≠ Ev.send tftp_cmd) ∧
      s'.file = s.file ∧ s'.bytes_sent = s.bytes_sent ∧ s'.block_start = s.block_start := by
  unfold setupPhase envSetup at h
  obtain ⟨s1, h1, h⟩ := exceptBind_ok _ _ _ h
  obtain ⟨s2, h2, h⟩ := exceptBind_ok _ _ _ h
  obtain ⟨s3, h3, h⟩ := exceptBind_ok _ _ _ h
  obtain ⟨ht1, f1, b1, k1⟩ := handshakeSt_ok _ _ h1
  obtain ⟨t2, ht2, hg2, f2, b2, k2⟩ := optEnvStep_ok _ _ _ _ env_serverip_cmd_ne_tftp h2
  obtain ⟨t3, ht3, hg3, f3, b3, k3⟩ := optEnvStep_ok _ _ _ _ env_ipaddr_cmd_ne_tftp h3
  obtain ⟨ht4, f4, b4, k4⟩ := mmc_dev_wait_ok _ _ h
  refine ⟨[Ev.send "\r", Ev.wait [uboot_prompt, hit_any_key], Ev.send "\r",
      Ev.wait [uboot_prompt]] ++ t2 ++ t3 ++ [Ev.send mmc_dev_cmd, Ev.wait [uboot_prompt]],
    ?_, ?_, by simp [f4, f3, f2, f1], by simp [b4, b3, b2, b1], by simp [k4, k3, k2, k1]⟩
  · simp [ht4, ht3, ht2, ht1]
  · intro ev hev
    simp only [List.mem_append] at hev
    rcases hev with ((hev | hev) | hev) | hev
    · exact handshake_evs_good ev hev
    · exact hg2 ev hev
    · exact hg3 ev hev
    · exact mmc_dev_evs_good ev hev

theorem setupPhase_err (args : Args) (s s1 : St) (e : Outcome)
    (h : setupPhase args s = Except.error (e, s1)) :
    (∃ ex, e = Outcome.timeout ex) ∧
    ∃ t, s1.trace = s.trace ++ t ∧
      (∀ ev ∈ t, isConnEv ev = true ∧ ev ≠ Ev.send tftp_cmd) ∧
      s1.file = s.file ∧ s1.bytes_sent = s.bytes_sent ∧ s1.block_start = s.block_start := by
  unfold setupPhase envSetup at h
  rcases exceptBind_err _ _ _ h with h1 | ⟨a1, h1, h⟩
  · obtain ⟨hex1, ht1, f1, b1, k1⟩ := handshakeSt_err _ _ _ h1
    rcases ht1 with ht1 | ht1
    · exact ⟨hex1, _, ht1, handshake_evs_good_half, f1, b1, k1⟩
    · exact ⟨hex1, _, ht1, handshake_evs_good, f1, b1, k1⟩
  · obtain ⟨ht1, f1, b1, k1⟩ := handshakeSt_ok _ _ h1
    rcases exceptBind_err _ _ _ h with h2 | ⟨a2, h2, h⟩
    · obtain ⟨hex2, t2, ht2, hg2, f2, b2, k2⟩ := optEnvStep_err _ _ _ _ _ env_serverip_cmd_ne_tftp h2
      refine ⟨hex2, [Ev.send "\r", Ev.wait [uboot_prompt, hit_any_key], Ev.send "\r",
          Ev.wait [uboot_prompt]] ++ t2, by simp [ht2, ht1], ?_,
        by simp [f2, f1], by simp [b2, b1], by simp [k2, k1]⟩
      intro ev hev
      simp only [List.mem_append] at hev
      rcases hev with hev | hev
      · exact handshake_evs_good ev hev
      · exact hg2 ev hev
    · obtain ⟨t2, ht2, hg2, f2, b2, k2⟩ := optEnvStep_ok _ _ _ _ env_serverip_cmd_ne_tftp h2
      rcases exceptBind_err _ _ _ h with h3 | ⟨a3, h3, h⟩
      · obtain ⟨hex3, t3, ht3, hg3, f3, b3, k3⟩ := optEnvStep_err _ _ _ _ _ env_ipaddr_cmd_ne_tftp h3
        refine ⟨hex3, [Ev.send "\r", Ev.wait [uboot_prompt, hit_any_key], Ev.send "\r",
            Ev.wait [uboot_prompt]] ++ t2 ++ t3, by simp [ht3, ht2, ht1], ?_,
          by simp [f3, f2, f1], by simp [b3, b2, b1], by simp [k3, k2, k1]⟩
        intro ev hev
        simp only [List.mem_append] at hev
        rcases hev with (hev | hev) | hev
        · exact handshake_evs_good ev hev
        · exact hg2 ev hev
        · exact hg3 ev hev
      · obtain ⟨t3, ht3, hg3, f3, b3, k3⟩ := optEnvStep_ok _ _ _ _ env_ipaddr_cmd_ne_tftp h3
        obtain ⟨hex4, ht4, f4, b4, k4⟩ := mmc_dev_wait_err _ _ _ h
        refine ⟨hex4, [Ev.send "\r", Ev.wait [uboot_prompt, hit_any_key], Ev.send "\r",
            Ev.wait [uboot_prompt]] ++ t2 ++ t3 ++ [Ev.send mmc_dev_cmd, Ev.wait [uboot_prompt]],
          ?_, ?_, by simp [f4, f3, f2, f1], by simp [b4, b3, b2, b1], by simp [k4, k3, k2, k1]⟩
        · simp [ht4, ht3, ht2, ht1]
        · intro ev hev
          simp only [List.mem_append] at hev
          rcases hev with ((hev | hev) | hev) | hev
          · exact handshake_evs_good ev hev
          · exact hg2 ev hev
          · exact hg3 ev hev
          · exact mmc_dev_evs_good ev hev

/- ## Chunk-file invariant machinery -/

theorem fileAfterFrom_append (f : Option (List Nat)) (t u : List Ev) :
    fileAfterFrom f (t ++ u) = fileAfterFrom (fileAfterFrom f t) u := by
  induction t generalizing f with
  | nil => rfl
  | cons e t ih => simp [fileAfterFrom, ih]

theorem fileAfter_snoc (t : List Ev) (e : Ev) :
    fileAfter (t ++ [e]) = applyEv (fileAfter t) e := by
  unfold fileAfter
  rw [fileAfterFrom_append]
  rfl

theorem fileAfterFrom_conn (f : Option (List Nat)) (u : List Ev)
    (hu : ∀ ev ∈ u, isConnEv ev = true) : fileAfterFrom f u = f := by
  induction u generalizing f with
  | nil => rfl
  | cons e u ih =>
      have he := hu e (by simp)
      have hrest : ∀ ev ∈ u, isConnEv ev = true := fun ev hev => hu ev (by simp [hev])
      cases e with
      | send cmd => simpa [fileAfterFrom, applyEv] using ih f hrest
      | wait expect => simpa [fileAfterFrom, applyEv] using ih f hrest
      | fileWrite c => simp [isConnEv] at he
      | fileRemove => simp [isConnEv] at he
      | closeImg => simp [isConnEv] at he
      | closeConn => simp [isConnEv] at he

theorem fileAfter_append_conn (t u : List Ev)
    (hu : ∀ ev ∈ u, isConnEv ev = true) : fileAfter (t ++ u) = fileAfter t := by
  unfold fileAfter
  rw [fileAfterFrom_append]
  exact fileAfterFrom_conn _ _ hu

theorem snoc_eq_append_cons (t : List Ev) (e : Ev) (pre post : List Ev) (x : Ev)
    (h : t ++ [e] = pre ++ x :: post) :
    (∃ post', t = pre ++ x :: post') ∨ (pre = t ∧ x = e ∧ post = []) := by
  rcases List.eq_nil_or_concat post with hp | ⟨ps, p, hp⟩
  · subst hp
    have h' : t ++ [e] = pre ++ [x] := by simpa using h
    obtain ⟨h1, h2⟩ := List.append_inj' h' rfl
    right
    injection h2 with h2'
    exact ⟨h1.symm, h2'.symm, rfl⟩
  · subst hp
    have h' : t ++ [e] = (pre ++ x :: ps) ++ [p] := by simp [h]
    obtain ⟨h1, h2⟩ := List.append_inj' h' rfl
    exact Or.inl ⟨ps, h1⟩

theorem TftpInv_snoc (t : List Ev) (e : Ev) (hT : TftpInv t)
    (he : e = Ev.send tftp_cmd → fileAfter t ≠ none) : TftpInv (t ++ [e]) := by
  intro pre post h
  rcases snoc_eq_append_cons t e pre post _ h with ⟨post', h'⟩ | ⟨h1, h2, _⟩
  · exact hT pre post' h'
  · subst h1
    exact he h2.symm

theorem TftpInv_append_nontftp (t u : List Ev) (hT : TftpInv t)
    (hu : ∀ ev ∈ u, ev ≠ Ev.send tftp_cmd) : TftpInv (t ++ u) := by
  induction u using List.reverseRecOn with
  | nil => simpa using hT
  | append_singleton u e ih =>
      have hu' : ∀ ev ∈ u, ev ≠ Ev.send tftp_cmd := fun ev hev => hu ev (by simp [hev])
      have he : e ≠ Ev.send tftp_cmd := hu e (by simp)
      rw [← List.append_assoc]
      exact TftpInv_snoc _ _ (ih hu') (fun hc => absurd hc he)

theorem TftpInv_append_conn (t u : List Ev) (hT : TftpInv t)
    (hu : ∀ ev ∈ u, isConnEv ev = true) (hf : fileAfter t ≠ none) :
    TftpInv (t ++ u) := by
  induction u using List.reverseRecOn with
  | nil => simpa using hT
  | append_singleton u e ih =>
      have hu' : ∀ ev ∈ u, isConnEv ev = true := fun ev hev => hu ev (by simp [hev])
      rw [← List.append_assoc]
      refine TftpInv_snoc _ _ (ih hu') ?_
      intro _
      rw [fileAfter_append_conn t u hu']
      exact hf

theorem isCloseEv_false_of_conn (ev : Ev) (h : isConnEv ev = true) : isCloseEv ev = false := by
  cases ev <;> simp_all [isConnEv, isCloseEv]

theorem chunkEvs_decomp (compress : List Nat → List Nat) (data : List Nat) (bs : Nat) :
    chunkEvs compress data bs = Ev.fileWrite (compress data) ::
      [Ev.send tftp_cmd,
       Ev.wait [bytes_transferred_marker (compress data).length],
       Ev.wait [uboot_prompt],
       Ev.send lzmadec_cmd,
       Ev.wait [uncompressed_size_marker data.length],
       Ev.wait [uboot_prompt],
       Ev.send (mmc_write_cmd bs (blocksOf data.length)),
       Ev.wait [blocks_written_marker (blocksOf data.length)],
       Ev.wait [uboot_prompt]] := rfl

theorem chunkEvs_tail_conn (compress : List Nat → List Nat) (data : List Nat) (bs : Nat) :
    ∀ ev ∈ [Ev.send tftp_cmd,
       Ev.wait [bytes_transferred_marker (compress data).length],
       Ev.wait [uboot_prompt],
       Ev.send lzmadec_cmd,
       Ev.wait [uncompressed_size_marker data.length],
       Ev.wait [uboot_prompt],
       Ev.send (mmc_write_cmd bs (blocksOf data.length)),
       Ev.wait [blocks_written_marker (blocksOf data.length)],
       Ev.wait [uboot_prompt]],
      isConnEv ev = true := by
  simp [List.forall_mem_cons, isConnEv]

theorem setupPhase_inv_ok (args : Args) (s s' : St) (hInv : StInv s)
    (h : setupPhase args s = Except.ok s') : StInv s' := by
  obtain ⟨t, ht, hg, hf, _, _⟩ := setupPhase_ok args s s' h
  constructor
  · rw [hf, ht, fileAfter_append_conn _ _ (fun ev hev => (hg ev hev).1)]
    exact hInv.1
  · rw [ht]
    exact TftpInv_append_nontftp _ _ hInv.2 (fun ev hev => (hg ev hev).2)

theorem setupPhase_inv_err (args : Args) (s s1 : St) (e : Outcome) (hInv : StInv s)
    (h : setupPhase args s = Except.error (e, s1)) : StInv s1 := by
  obtain ⟨_, t, ht, hg, hf, _, _⟩ := setupPhase_err args s s1 e h
  constructor
  · rw [hf, ht, fileAfter_append_conn _ _ (fun ev hev => (hg ev hev).1)]
    exact hInv.1
  · rw [ht]
    exact TftpInv_append_nontftp _ _ hInv.2 (fun ev hev => (hg ev hev).2)

theorem fileWrite_snoc_inv (t : List Ev) (c : List Nat) (hT : TftpInv t) :
    fileAfter (t ++ [Ev.fileWrite c]) = some c ∧ TftpInv (t ++ [Ev.fileWrite c]) := by
  constructor
  · rw [fileAfter_snoc]
    rfl
  · refine TftpInv_snoc _ _ hT ?_
    intro hc
    cases hc

theorem flashChunk_inv_ok (compress : List Nat → List Nat) (data : List Nat)
    (s s' : St) (hInv : StInv s) (h : flashChunk compress data s = Except.ok s') :
    StInv s' := by
  obtain ⟨ht, hf, _, _⟩ := flashChunk_ok_spec _ _ _ _ h
  rw [chunkEvs_decomp] at ht
  rw [← List.singleton_append, ← List.append_assoc] at ht
  obtain ⟨hfa, hTi⟩ := fileWrite_snoc_inv s.trace (compress data) hInv.2
  constructor
  · rw [hf, ht, fileAfter_append_conn _ _ (chunkEvs_tail_conn compress data s.block_start), hfa]
  · rw [ht]
    refine TftpInv_append_conn _ _ hTi (chunkEvs_tail_conn compress data s.block_start) ?_
    rw [hfa]
    simp

theorem flashChunk_inv_err (compress : List Nat → List Nat) (data : List Nat)
    (s s1 : St) (e : Outcome) (hInv : StInv s)
    (h : flashChunk compress data s = Except.error (e, s1)) : StInv s1 := by
  obtain ⟨_, hf, _, _, t, ht, hconn⟩ := flashChunk_err_spec _ _ _ _ _ h
  rw [← List.singleton_append, ← List.append_assoc] at ht
  obtain ⟨hfa, hTi⟩ := fileWrite_snoc_inv s.trace (compress data) hInv.2
  constructor
  · rw [hf, ht, fileAfter_append_conn _ _ hconn, hfa]
  · rw [ht]
    refine TftpInv_append_conn _ _ hTi hconn ?_
    rw [hfa]
    simp

theorem flashLoop_inv (compress : List Nat → List Nat) :
    ∀ (fuel : Nat) (stream : List Nat) (s : St), StInv s →
      (∀ s', flashLoop compress fuel stream s = Except.ok s' → StInv s') ∧
      (∀ e s1, flashLoop compress fuel stream s = Except.error (e, s1) → StInv s1) := by
  intro fuel
  induction fuel with
  | zero =>
      intro stream s hInv
      constructor
      · intro s' h
        injection h with h'
        subst h'
        exact hInv
      · intro e s1 h
        cases h
  | succ fuel ih =>
      intro stream s hInv
      constructor
      · intro s' h
        unfold flashLoop at h
        by_cases hd : stream.take chunk_size_in_bytes = []
        · rw [if_pos hd] at h
          injection h with h'
          subst h'
          exact hInv
        · rw [if_neg hd] at h
          obtain ⟨s1, h1, h⟩ := exceptBind_ok _ _ _ h
          exact (ih (stream.drop chunk_size_in_bytes) s1
            (flashChunk_inv_ok _ _ _ _ hInv h1)).1 s' h
      · intro e s1 h
        unfold flashLoop at h
        by_cases hd : stream.take chunk_size_in_bytes = []
        · rw [if_pos hd] at h
          cases h
        · rw [if_neg hd] at h
          rcases exceptBind_err _ _ _ h with h1 | ⟨a1, h1, h⟩
          · exact flashChunk_inv_err _ _ _ _ _ hInv h1
          · exact (ih (stream.drop chunk_size_in_bytes) a1
              (flashChunk_inv_ok _ _ _ _ hInv h1)).2 e s1 h

theorem flashLoop_noclose (compress : List Nat → List Nat) :
    ∀ (fuel : Nat) (stream : List Nat) (s : St),
      (∀ s', flashLoop compress fuel stream s = Except.ok s' →
        ∃ t, s'.trace = s.trace ++ t ∧ ∀ ev ∈ t, isCloseEv ev = false) ∧
      (∀ e s1, flashLoop compress fuel stream s = Except.error (e, s1) →
        ∃ t, s1.trace = s.trace ++ t ∧ ∀ ev ∈ t, isCloseEv ev = false) := by
  intro fuel
  induction fuel with
  | zero =>
      intro stream s
      constructor
      · intro s' h
        injection h with h'
        subst h'
        exact ⟨[], by simp, by simp⟩
      · intro e s1 h
        cases h
  | succ fuel ih =>
      intro stream s
      constructor
      · intro s' h
        unfold flashLoop at h
        by_cases hd : stream.take chunk_size_in_bytes = []
        · rw [if_pos hd] at h
          injection h with h'
          subst h'
          exact ⟨[], by simp, by simp⟩
        · rw [if_neg hd] at h
          obtain ⟨s1, h1, h⟩ := exceptBind_ok _ _ _ h
          obtain ⟨ht1, _, _, _⟩ := flashChunk_ok_spec _ _ _ _ h1
          obtain ⟨t, ht, hcl⟩ := (ih (stream.drop chunk_size_in_bytes) s1).1 s' h
          refine ⟨chunkEvs compress (stream.take chunk_size_in_bytes) s.block_start ++ t,
            by simp [ht, ht1], ?_⟩
          intro ev hev
          rcases List.mem_append.1 hev with hev | hev
          · rw [chunkEvs_decomp] at hev
            rcases List.mem_cons.1 hev with rfl | hev
            · rfl
            · exact isCloseEv_false_of_conn ev (chunkEvs_tail_conn _ _ _ ev hev)
          · exact hcl ev hev
      · intro e s1 h
        unfold flashLoop at h
        by_cases hd : stream.take chunk_size_in_bytes = []
        · rw [if_pos hd] at h
          cases h
        · rw [if_neg hd] at h
          rcases exceptBind_err _ _ _ h with h1 | ⟨a1, h1, h⟩
          · obtain ⟨_, _, _, _, t, ht, hconn⟩ := flashChunk_err_spec _ _ _ _ _ h1
            refine ⟨Ev.fileWrite (compress (stream.take chunk_size_in_bytes)) :: t,
              by simp [ht], ?_⟩
            intro ev hev
            rcases List.mem_cons.1 hev with rfl | hev
            · rfl
            · exact isCloseEv_false_of_conn ev (hconn ev hev)
          · obtain ⟨ht1, _, _, _⟩ := flashChunk_ok_spec _ _ _ _ h1
            obtain ⟨t, ht, hcl⟩ := (ih (stream.drop chunk_size_in_bytes) a1).2 e s1 h
            refine ⟨chunkEvs compress (stream.take chunk_size_in_bytes) s.block_start ++ t,
              by simp [ht, ht1], ?_⟩
            intro ev hev
            rcases List.mem_append.1 hev with hev | hev
            · rw [chunkEvs_decomp] at hev
              rcases List.mem_cons.1 hev with rfl | hev
              · rfl
              · exact isCloseEv_false_of_conn ev (chunkEvs_tail_conn _ _ _ ev hev)
            · exact hcl ev hev

/- ## Top-level characterization of `do_flash_image` -/

theorem initSt_inv (input : List Char) : StInv (initSt input) := by
  constructor
  · rfl
  · intro pre post h
    simp [initSt] at h

theorem count_zero_of_noclose (t : List Ev) (h : ∀ ev ∈ t, isCloseEv ev = false) :
    t.count Ev.closeImg = 0 ∧ t.count Ev.closeConn = 0 := by
  constructor <;> rw [List.count_eq_zero] <;> intro hmem <;>
    first
    | (have h1 := h _ hmem; simp [isCloseEv] at h1)

theorem finish_evs_nontftp :
    ∀ ev ∈ [Ev.fileRemove, Ev.closeImg, Ev.closeConn], ev ≠ Ev.send tftp_cmd := by
  decide

theorem do_flash_image_master (args : Args) (compress : List Nat → List Nat)
    (stream : List Nat) (input : List Char) :
    (do_flash_image args compress stream input).file = none ∧
    TftpInv (do_flash_image args compress stream input).trace ∧
    ((do_flash_image args compress stream input).outcome ≠ Outcome.success →
      (do_flash_image args compress stream input).trace.count Ev.closeImg = 0 ∧
      (do_flash_image args compress stream input).trace.count Ev.closeConn = 0) ∧
    ((do_flash_image args compress stream input).outcome = Outcome.success →
      (do_flash_image args compress stream input).trace.count Ev.closeImg = 1 ∧
      (do_flash_image args compress stream input).trace.count Ev.closeConn = 1) ∧
    (∀ ex c, (do_flash_image args compress stream input).outcome = Outcome.timeout ex →
      Ev.fileWrite c ∈ (do_flash_image args compress stream input).trace →
      Ev.fileRemove ∈ (do_flash_image args compress stream input).trace) := by
  have hInv0 := initSt_inv input
  cases hset : setupPhase args (initSt input) with
  | error es =>
      obtain ⟨e, s1⟩ := es
      have hr : do_flash_image args compress stream input =
          { trace := s1.trace, file := s1.file, bytes_sent := s1.bytes_sent,
            block_start := s1.block_start, outcome := e } := by
        unfold do_flash_image
        rw [hset]
      obtain ⟨⟨ex, hex⟩, t, ht, hg, hf, _, _⟩ := setupPhase_err args _ s1 e hset
      have hInv1 := setupPhase_inv_err args _ s1 e hInv0 hset
      have htrace : s1.trace = t := by simpa [initSt] using ht
      have hcounts : s1.trace.count Ev.closeImg = 0 ∧ s1.trace.count Ev.closeConn = 0 := by
        rw [htrace]
        exact count_zero_of_noclose t
          (fun ev hev => isCloseEv_false_of_conn ev (hg ev hev).1)
      rw [hr]
      refine ⟨by simpa [initSt] using hf, hInv1.2, fun _ => hcounts, ?_, ?_⟩
      · intro hsucc
        rw [hex] at hsucc
        cases hsucc
      · intro ex' c hto hfw
        rw [htrace] at hfw
        have := (hg _ hfw).1
        simp [isConnEv] at this
  | ok s =>
      have hr0 : do_flash_image args compress stream input =
          finishFlash (flashLoop compress (stream.length + 1) stream s) := by
        unfold do_flash_image
        rw [hset]
      have hInv1 := setupPhase_inv_ok args _ s hInv0 hset
      obtain ⟨tS, htS, hgS, hfS, _, _⟩ := setupPhase_ok args _ s hset
      have htraceS : s.trace = tS := by simpa [initSt] using htS
      have hcountS : tS.count Ev.closeImg = 0 ∧ tS.count Ev.closeConn = 0 :=
        count_zero_of_noclose tS
          (fun ev hev => isCloseEv_false_of_conn ev (hgS ev hev).1)
      cases hloop : flashLoop compress (stream.length + 1) stream s with
      | ok s2 =>
          have hInv2 := (flashLoop_inv compress _ stream s hInv1).1 s2 hloop
          obtain ⟨tL, htL, hclL⟩ := (flashLoop_noclose compress _ stream s).1 s2 hloop
          have hcountL := count_zero_of_noclose tL hclL
          have hcount2 : s2.trace.count Ev.closeImg = 0 ∧ s2.trace.count Ev.closeConn = 0 := by
            rw [htL, htraceS, List.count_append, List.count_append]
            omega
          cases hfile : s2.file with
          | none =>
              have hr : do_flash_image args compress stream input =
                  { trace := s2.trace, file := none, bytes_sent := s2.bytes_sent,
                    block_start := s2.block_start, outcome := Outcome.fileNotFound } := by
                rw [hr0, hloop]
                simp [finishFlash, hfile]
              rw [hr]
              refine ⟨rfl, hInv2.2, fun _ => hcount2, ?_, ?_⟩
              · intro hsucc
                cases hsucc
              · intro ex' c hto
                cases hto
          | some c0 =>
              have hr : do_flash_image args compress stream input =
                  { trace := s2.trace ++ [Ev.fileRemove, Ev.closeImg, Ev.closeConn],
                    file := none, bytes_sent := s2.bytes_sent,
                    block_start := s2.block_start, outcome := Outcome.success } := by
                rw [hr0, hloop]
                simp [finishFlash, hfile]
              rw [hr]
              refine ⟨rfl, ?_, ?_, ?_, ?_⟩
              · exact TftpInv_append_nontftp _ _ hInv2.2 finish_evs_nontftp
              · intro hne
                exact absurd rfl hne
              · intro _
                rw [List.count_append, List.count_append, hcount2.1, hcount2.2]
                refine ⟨by decide, by decide⟩
              · intro ex' c hto
                cases hto
      | error es2 =>
          obtain ⟨e2, s2⟩ := es2
          have hInv2 := (flashLoop_inv compress _ stream s hInv1).2 e2 s2 hloop
          obtain ⟨tL, htL, hclL⟩ := (flashLoop_noclose compress _ stream s).2 e2 s2 hloop
          obtain ⟨⟨ex2, hex2⟩, _⟩ := flashLoop_err_book compress _ stream s s2 e2 hloop
          have hcountL := count_zero_of_noclose tL hclL
          have hcount2 : s2.trace.count Ev.closeImg = 0 ∧ s2.trace.count Ev.closeConn = 0 := by
            rw [htL, htraceS, List.count_append, List.count_append]
            omega
          cases hfile : s2.file with
          | none =>
              have hr : do_flash_image args compress stream input =
                  { trace := s2.trace, file := none, bytes_sent := s2.bytes_sent,
                    block_start := s2.block_start, outcome := Outcome.fileNotFound } := by
                rw [hr0, hloop]
                simp [finishFlash, hfile]
              rw [hr]
              refine ⟨rfl, hInv2.2, fun _ => hcount2, ?_, ?_⟩
              · intro hsucc
                cases hsucc
              · intro ex' c hto
                cases hto
          | some c0 =>
              have hr : do_flash_image args compress stream input =
                  { trace := s2.trace ++ [Ev.fileRemove], file := none,
                    bytes_sent := s2.bytes_sent, block_start := s2.block_start,
                    outcome := e2 } := by
                rw [hr0, hloop]
                simp [finishFlash, hfile]
              rw [hr]
              refine ⟨rfl, ?_, ?_, ?_, ?_⟩
              · exact TftpInv_append_nontftp _ _ hInv2.2
                  (by intro ev hev; simp only [List.mem_singleton] at hev; subst hev; decide)
              · intro _
                rw [List.count_append, List.count_append, hcount2.1, hcount2.2]
                refine ⟨by decide, by decide⟩
              · intro hsucc
                rw [hex2] at hsucc
                cases hsucc
              · intro ex' c hto hfw
                exact List.mem_append_right _ (by simp)

/- ## Claim theorems -/

theorem exists_ok_of_isOkE {ε α : Type} (x : Except ε α) (h : isOkE x = true) :
    ∃ a, x = Except.ok a := by
  cases x with
  | ok a => exact ⟨a, rfl⟩
  | error e => simp [isOkE] at h

/-- C2: for every non-empty chunk, a successful iteration performs exactly
this command/response sequence, in order: `tftp` to the fixed staging address,
wait for the transfer marker with the exact compressed byte length, wait for
the prompt; `lzmadec`, wait for the marker with the exact uncompressed chunk
length, wait for the prompt; `mmc write` with block offset and block count in
uppercase hexadecimal, wait for the write marker with the decimal block count,
wait for the prompt. -/
theorem claim_C2_chunk_sequence (compress : List Nat → List Nat) (data : List Nat)
    (s s' : St) (hne : data ≠ []) (h : flashChunk compress data s = Except.ok s') :
    s'.trace = s.trace ++
      [Ev.fileWrite (compress data),
       Ev.send ("tftp 0x58000000 " ++ chunk_filename ++ "\r"),
       Ev.wait ["Bytes transferred = " ++ Nat.repr (compress data).length],
       Ev.wait [uboot_prompt],
       Ev.send "lzmadec 0x58000000 0x48000000\r",
       Ev.wait ["Uncompressed size: " ++ Nat.repr data.length],
       Ev.wait [uboot_prompt],
       Ev.send ("mmc write 0x48000000 0x" ++ toHexU s.block_start ++ " 0x" ++
         toHexU (blocksOf data.length) ++ "\r"),
       Ev.wait [Nat.repr (blocksOf data.length) ++ " blocks written: OK"],
       Ev.wait [uboot_prompt]] := by
  have ht := (flashChunk_ok_spec compress data s s' h).1
  rw [ht]
  rfl

/-- Witness for C2 at a concrete one-byte chunk with the identity in place of
the external compressor. -/
theorem claim_C2_witness :
    ((flashChunk (fun d => d) [0]
        { input := ("Bytes transferred = 1=>Uncompressed size: 1=>1 blocks written: OK=>").toList,
          trace := [], file := none, bytes_sent := 0, block_start := 0 }).map
      (fun s => s.trace)) = Except.ok
      [Ev.fileWrite [0],
       Ev.send ("tftp 0x58000000 " ++ chunk_filename ++ "\r"),
       Ev.wait ["Bytes transferred = " ++ Nat.repr 1],
       Ev.wait [uboot_prompt],
       Ev.send "lzmadec 0x58000000 0x48000000\r",
       Ev.wait ["Uncompressed size: " ++ Nat.repr 1],
       Ev.wait [uboot_prompt],
       Ev.send ("mmc write 0x48000000 0x" ++ toHexU 0 ++ " 0x" ++ toHexU (blocksOf 1) ++ "\r"),
       Ev.wait [Nat.repr (blocksOf 1) ++ " blocks written: OK"],
       Ev.wait [uboot_prompt]] := by
  obtain ⟨s', hs'⟩ := exists_ok_of_isOkE (flashChunk (fun d => d) [0]
    { input := ("Bytes transferred = 1=>Uncompressed size: 1=>1 blocks written: OK=>").toList,
      trace := [], file := none, bytes_sent := 0, block_start := 0 }) (by decide)
  have h2 := claim_C2_chunk_sequence (fun d => d) [0] _ s' (by decide) hs'
  rw [hs']
  simp only [Except.map]
  rw [h2]
  rfl

/-- C3: for any stream (the Image Source returns at most the 20 MiB chunk
limit per read, less only at end of stream, empty once exhausted), a
successful run adds exactly the stream length to `bytes_sent` and exactly
`ceil(length / 512)` to `block_start`; on a failed run `bytes_sent` never
exceeds that bound; and the per-chunk block count computation equals the
ceiling division. -/
theorem claim_C3_bookkeeping (compress : List Nat → List Nat) (stream : List Nat)
    (s : St) (fuel : Nat) (hfuel : stream.length + 1 ≤ fuel) :
    (∀ s', flashLoop compress fuel stream s = Except.ok s' →
        s'.bytes_sent = s.bytes_sent + stream.length ∧
        s'.block_start = s.block_start + (stream.length + 511) / 512) ∧
    (∀ e s1, flashLoop compress fuel stream s = Except.error (e, s1) →
        s1.bytes_sent ≤ s.bytes_sent + stream.length) ∧
    (∀ m, blocksOf m = (m + 511) / 512) := by
  exact ⟨fun s' h => flashLoop_ok_book compress fuel stream s s' hfuel h,
    fun e s1 h => (flashLoop_err_book compress fuel stream s s1 e h).2,
    blocksOf_eq⟩

/-- Witness for C3: a three-byte image flashed in one chunk. -/
theorem claim_C3_witness :
    ((flashLoop (fun d => d) 4 [0, 0, 0]
        { input := ("Bytes transferred = 3=>Uncompressed size: 3=>1 blocks written: OK=>").toList,
          trace := [], file := none, bytes_sent := 0, block_start := 0 }).map
      (fun s => (s.bytes_sent, s.block_start))) = Except.ok (3, 1) := by
  obtain ⟨s', hs'⟩ := exists_ok_of_isOkE (flashLoop (fun d => d) 4 [0, 0, 0]
    { input := ("Bytes transferred = 3=>Uncompressed size: 3=>1 blocks written: OK=>").toList,
      trace := [], file := none, bytes_sent := 0, block_start := 0 }) (by decide)
  have h := (claim_C3_bookkeeping (fun d => d) [0, 0, 0]
    { input := ("Bytes transferred = 3=>Uncompressed size: 3=>1 blocks written: OK=>").toList,
      trace := [], file := none, bytes_sent := 0, block_start := 0 } 4 (by decide)).1 s' hs'
  rw [hs']
  simp only [Except.map]
  rw [h.1, h.2]
  rfl

/-- C4 (amended): the boot handshake performs exactly two carriage-return
round trips regardless of the starting state — the second carriage return is
sent unconditionally, even when the board is already at the prompt — and
never sends a third. -/
theorem claim_C4_two_round_trips (s : St) :
    (∀ s', handshakeSt s = Except.ok s' →
        s'.trace = s.trace ++ [Ev.send "\r", Ev.wait [uboot_prompt, hit_any_key],
          Ev.send "\r", Ev.wait [uboot_prompt]]) ∧
    (∀ e s1, handshakeSt s = Except.error (e, s1) →
        s1.trace = s.trace ++ [Ev.send "\r", Ev.wait [uboot_prompt, hit_any_key]] ∨
        s1.trace = s.trace ++ [Ev.send "\r", Ev.wait [uboot_prompt, hit_any_key],
          Ev.send "\r", Ev.wait [uboot_prompt]]) := by
  exact ⟨fun s' h => (handshakeSt_ok s s' h).1,
    fun e s1 h => (handshakeSt_err s s1 e h).2.1⟩

/-- Counterexample to C4 as stated: a board already at the prompt (the first
wait matches the prompt marker and not the countdown marker), yet the
handshake still sends a second carriage return — two CR round trips, not
one. -/
theorem claim_C4_counterexample :
    conn_wait_for_any ("=>=>").toList [uboot_prompt, hit_any_key] =
      Except.ok (("=>").toList, ("=>").toList) ∧
    isSubOf uboot_prompt ("=>").toList = true ∧
    isSubOf hit_any_key ("=>").toList = false ∧
    ((handshakeSt { input := ("=>=>").toList, trace := [], file := none,
                    bytes_sent := 0, block_start := 0 }).map
      (fun s => s.trace.count (Ev.send "\r"))) = Except.ok 2 := by
  decide

/-- Witness for the amended C4 on a concrete already-at-prompt input. -/
theorem claim_C4_witness :
    ((handshakeSt { input := ("=>=>").toList, trace := [], file := none,
                    bytes_sent := 0, block_start := 0 }).map (fun s => s.trace)) = Except.ok
      [Ev.send "\r", Ev.wait [uboot_prompt, hit_any_key],
       Ev.send "\r", Ev.wait [uboot_prompt]] := by
  obtain ⟨s', hs'⟩ := exists_ok_of_isOkE (handshakeSt
    { input := ("=>=>").toList,
      trace := [], file := none, bytes_sent := 0, block_start := 0 }) (by decide)
  have h := (claim_C4_two_round_trips
    { input := ("=>=>").toList, trace := [],
      file := none, bytes_sent := 0, block_start := 0 }).1 s' hs'
  rw [hs']
  simp only [Except.map]
  rw [h]
  rfl

/-- C5 (amended): the serial channel and the image source are closed exactly
once on the successful exit path only; on every failing exit (marker timeout
or the final file-not-found) neither is closed, although chunk-file removal
still runs inside the loop's cleanup. -/
theorem claim_C5_close_on_success_only (args : Args) (compress : List Nat → List Nat)
    (stream : List Nat) (input : List Char) :
    ((do_flash_image args compress stream input).outcome = Outcome.success →
      (do_flash_image args compress stream input).trace.count Ev.closeImg = 1 ∧
      (do_flash_image args compress stream input).trace.count Ev.closeConn = 1) ∧
    ((do_flash_image args compress stream input).outcome ≠ Outcome.success →
      (do_flash_image args compress stream input).trace.count Ev.closeImg = 0 ∧
      (do_flash_image args compress stream input).trace.count Ev.closeConn = 0) := by
  obtain ⟨_, _, hno, hyes, _⟩ := do_flash_image_master args compress stream input
  exact ⟨hyes, hno⟩

/-- Counterexample to C5 as stated: a marker timeout while awaiting the
transfer confirmation removes the chunk file but closes neither the serial
channel nor the image source. -/
theorem claim_C5_counterexample :
    (do_flash_image { serverip := none, ipaddr := none, verbose := false }
        (fun d => d) [0] ("=>=>=>").toList).outcome ≠ Outcome.success ∧
    Ev.closeConn ∉ (do_flash_image { serverip := none, ipaddr := none, verbose := false }
        (fun d => d) [0] ("=>=>=>").toList).trace ∧
    Ev.closeImg ∉ (do_flash_image { serverip := none, ipaddr := none, verbose := false }
        (fun d => d) [0] ("=>=>=>").toList).trace ∧
    Ev.fileRemove ∈ (do_flash_image { serverip := none, ipaddr := none, verbose := false }
        (fun d => d) [0] ("=>=>=>").toList).trace := by
  decide

/-- Witness for the amended C5 on a concrete fully successful session. -/
theorem claim_C5_witness :
    (do_flash_image { serverip := none, ipaddr := none, verbose := false }
        (fun d => d) [0]
        ("=>=>=>Bytes transferred = 1=>Uncompressed size: 1=>1 blocks written: OK=>").toList).trace.count
      Ev.closeImg = 1 ∧
    (do_flash_image { serverip := none, ipaddr := none, verbose := false }
        (fun d => d) [0]
        ("=>=>=>Bytes transferred = 1=>Uncompressed size: 1=>1 blocks written: OK=>").toList).trace.count
      Ev.closeConn = 1 := by
  exact (claim_C5_close_on_success_only { serverip := none, ipaddr := none, verbose := false }
    (fun d => d) [0]
    ("=>=>=>Bytes transferred = 1=>Uncompressed size: 1=>1 blocks written: OK=>").toList).1
    (by decide)

/-- C6: whenever the transfer command is sent the chunk file exists (replayed
over every decomposition of the trace); the chunk file does not exist after
session end on any path; and a timeout outcome with a chunk in flight still
has the chunk-file removal in the trace. -/
theorem claim_C6_chunkfile (args : Args) (compress : List Nat → List Nat)
    (stream : List Nat) (input : List Char) :
    (∀ pre post, (do_flash_image args compress stream input).trace =
        pre ++ Ev.send tftp_cmd :: post → fileAfter pre ≠ none) ∧
    (do_flash_image args compress stream input).file = none ∧
    (∀ ex c, (do_flash_image args compress stream input).outcome = Outcome.timeout ex →
      Ev.fileWrite c ∈ (do_flash_image args compress stream input).trace →
      Ev.fileRemove ∈ (do_flash_image args compress stream input).trace) := by
  obtain ⟨hfile, hT, _, _, hrem⟩ := do_flash_image_master args compress stream input
  exact ⟨hT, hfile, hrem⟩

/-- Witness for C6 on the concrete timed-out session: the file is present at
the transfer command, and the removal event is in the trace. -/
theorem claim_C6_witness :
    fileAfter [Ev.send "\r", Ev.wait [uboot_prompt, hit_any_key], Ev.send "\r",
      Ev.wait [uboot_prompt], Ev.send mmc_dev_cmd, Ev.wait [uboot_prompt],
      Ev.fileWrite [0]] ≠ none ∧
    Ev.fileRemove ∈ (do_flash_image { serverip := none, ipaddr := none, verbose := false }
        (fun d => d) [0] ("=>=>=>").toList).trace := by
  constructor
  · exact (claim_C6_chunkfile { serverip := none, ipaddr := none, verbose := false }
      (fun d => d) [0] ("=>=>=>").toList).1
      [Ev.send "\r", Ev.wait [uboot_prompt, hit_any_key], Ev.send "\r",
        Ev.wait [uboot_prompt], Ev.send mmc_dev_cmd, Ev.wait [uboot_prompt],
        Ev.fileWrite [0]]
      [Ev.wait ["Bytes transferred = 1"], Ev.fileRemove]
      (by decide)
  · exact (claim_C6_chunkfile { serverip := none, ipaddr := none, verbose := false }
      (fun d => d) [0] ("=>=>=>").toList).2.2 ["Bytes transferred = 1"] [0]
      (by decide) (by decide)

/-- C7: a 45 MiB raw image with the 20 MiB chunk limit is cut into exactly
three chunks of 20 MiB, 20 MiB and 5 MiB, whose block counts at 512-byte
blocks are 40960, 40960 and 10240; a successful run stages exactly those
chunks (compressed) and ends with `bytes_sent = 47185920` and `block_start`
advanced by 92160. -/
theorem claim_C7_45MiB (compress : List Nat → List Nat) (stream : List Nat)
    (s : St) (fuel : Nat) (hlen : stream.length = 47185920)
    (hfuel : fuel = stream.length + 1) :
    (chunksOf fuel stream).map List.length = [20971520, 20971520, 5242880] ∧
    (chunksOf fuel stream).map (fun d => blocksOf d.length) = [40960, 40960, 10240] ∧
    (∀ s', flashLoop compress fuel stream s = Except.ok s' →
        writesOf s'.trace = writesOf s.trace ++ (chunksOf fuel stream).map compress ∧
        s'.bytes_sent = s.bytes_sent + 47185920 ∧
        s'.block_start = s.block_start + 92160) := by
  have hmap : (chunksOf fuel stream).map List.length = [20971520, 20971520, 5242880] := by
    rw [natChunks_eq, hfuel, hlen]
    decide
  refine ⟨hmap, ?_, ?_⟩
  · have h2 : ((chunksOf fuel stream).map List.length).map blocksOf =
        (chunksOf fuel stream).map (fun d => blocksOf d.length) := by
      rw [List.map_map]
      rfl
    rw [← h2, hmap]
    decide
  · intro s' h
    refine ⟨flashLoop_writes compress fuel stream s s' h, ?_, ?_⟩
    · have hb := (flashLoop_ok_book compress fuel stream s s' (by omega) h).1
      rw [hb, hlen]
    · have hk := (flashLoop_ok_book compress fuel stream s s' (by omega) h).2
      rw [hk, hlen]

/-- Witness for C7 on a concrete 45 MiB all-zero image. -/
theorem claim_C7_witness :
    (chunksOf 47185921 (List.replicate 47185920 (0 : Nat))).map List.length =
      [20971520, 20971520, 5242880] := by
  exact (claim_C7_45MiB (fun d => d) (List.replicate 47185920 (0 : Nat))
    { input := [], trace := [], file := none, bytes_sent := 0, block_start := 0 }
    47185921 (by norm_num [List.length_replicate]) (by norm_num [List.length_replicate])).1

/-- C8: every chunk, whatever the image variant, is staged compressed — the
chunk file always holds `compress data` (the embedding of
`lzma.compress(data, format=FORMAT_ALONE, preset=1)`) and the `lzmadec`
command is always sent; there is no uncompressed transfer mode, and the
staging address 0x58000000 always differs from the load address
0x48000000. -/
theorem claim_C8_always_compressed (compress : List Nat → List Nat) (data : List Nat)
    (s s' : St) (h : flashChunk compress data s = Except.ok s') :
    Ev.fileWrite (compress data) ∈ s'.trace ∧
    Ev.send lzmadec_cmd ∈ s'.trace ∧
    tftp_cmd = "tftp 0x" ++ toHexU staging_addr ++ " " ++ chunk_filename ++ "\r" ∧
    lzmadec_cmd = "lzmadec 0x" ++ toHexU staging_addr ++ " 0x" ++ toHexU load_addr ++ "\r" ∧
    staging_addr ≠ load_addr := by
  have ht := (flashChunk_ok_spec compress data s s' h).1
  refine ⟨?_, ?_, by decide, by decide, by decide⟩
  · rw [ht]
    simp [chunkEvs]
  · rw [ht]
    simp [chunkEvs]

/-- Witness for C8 on a concrete one-byte chunk. -/
theorem claim_C8_witness :
    ((flashChunk (fun d => d) [0]
        { input := ("Bytes transferred = 1=>Uncompressed size: 1=>1 blocks written: OK=>").toList,
          trace := [], file := none, bytes_sent := 0, block_start := 0 }).map
      (fun s => decide (Ev.send lzmadec_cmd ∈ s.trace))) = Except.ok true ∧
    staging_addr ≠ load_addr := by
  obtain ⟨s', hs'⟩ := exists_ok_of_isOkE (flashChunk (fun d => d) [0]
    { input := ("Bytes transferred = 1=>Uncompressed size: 1=>1 blocks written: OK=>").toList,
      trace := [], file := none, bytes_sent := 0, block_start := 0 }) (by decide)
  have h := claim_C8_always_compressed (fun d => d) [0] _ s' hs'
  refine ⟨?_, h.2.2.2.2⟩
  rw [hs']
  simp only [Except.map]
  rw [decide_eq_true h.2.1]

/-- C9: with an empty image the loop body never runs and no chunk file is
ever created, yet the unconditional `os.remove` in the `finally` block then
raises `FileNotFoundError`: the session ends with a file-not-found error
instead of terminating successfully. -/
theorem claim_C9_empty_image (args : Args) (compress : List Nat → List Nat)
    (input : List Char) (hok : isOkE (setupPhase args (initSt input)) = true) :
    (do_flash_image args compress [] input).outcome = Outcome.fileNotFound ∧
    (∀ c, Ev.fileWrite c ∉ (do_flash_image args compress [] input).trace) ∧
    (do_flash_image args compress [] input).outcome ≠ Outcome.success := by
  obtain ⟨s, hset⟩ := exists_ok_of_isOkE _ hok
  obtain ⟨tS, htS, hgS, hfS, _, _⟩ := setupPhase_ok args _ s hset
  have hloop : flashLoop compress (([] : List Nat).length + 1) [] s = Except.ok s := by
    rfl
  have hfile : s.file = none := by simpa [initSt] using hfS
  have hr0 : do_flash_image args compress [] input =
      finishFlash (flashLoop compress (([] : List Nat).length + 1) [] s) := by
    unfold do_flash_image
    rw [hset]
  have hr : do_flash_image args compress [] input =
      { trace := s.trace, file := none, bytes_sent := s.bytes_sent,
        block_start := s.block_start, outcome := Outcome.fileNotFound } := by
    rw [hr0, hloop]
    simp [finishFlash, hfile]
  rw [hr]
  refine ⟨rfl, ?_, fun hcon => Outcome.noConfusion hcon⟩
  intro c hmem
  have htrace : s.trace = tS := by simpa [initSt] using htS
  rw [htrace] at hmem
  have := (hgS _ hmem).1
  simp [isConnEv] at this

/-- Witness for C9 on a concrete empty image with a successful setup. -/
theorem claim_C9_witness :
    (do_flash_image { serverip := none, ipaddr := none, verbose := false }
        (fun d => d) [] ("=>=>=>").toList).outcome = Outcome.fileNotFound ∧
    (do_flash_image { serverip := none, ipaddr := none, verbose := false }
        (fun d => d) [] ("=>=>=>").toList).outcome ≠ Outcome.success := by
  have h := claim_C9_empty_image { serverip := none, ipaddr := none, verbose := false }
    (fun d => d) ("=>=>=>").toList (by decide)
  exact ⟨h.1, h.2.2⟩

/-- C10: when the transfer-root option is omitted entirely (`args.tftp` is
`None`), `main` raises the `TypeError` from `os.path.isdir(None)` before any
flashing, not the dedicated configuration error, which is raised only for a
supplied non-directory path. -/
theorem claim_C10_none_tftp (fs : String → Bool) (cwd : String)
    (flash : String → FlashResult) :
    select_tftp_root fs cwd none = Except.error MainErr.typeError ∧
    run_main fs cwd none flash = Except.error MainErr.typeError ∧
    (∀ msg, MainErr.typeError ≠ MainErr.configError msg) ∧
    (∀ p, p ≠ "AUTO" → fs p = false →
      select_tftp_root fs cwd (some p) =
        Except.error (MainErr.configError "-t parameter is not external TFTP root.")) := by
  refine ⟨rfl, rfl, fun msg h => MainErr.noConfusion h, ?_⟩
  intro p hp hfs
  unfold select_tftp_root
  rw [if_neg (by simp [hp])]
  simp [hfs]

/-- Witness for C10 with a concrete filesystem, path and flashing stub. -/
theorem claim_C10_witness :
    select_tftp_root (fun _ => false) "/w" none = Except.error MainErr.typeError ∧
    select_tftp_root (fun _ => false) "/w" (some "/nodir") =
      Except.error (MainErr.configError "-t parameter is not external TFTP root.") := by
  have h := claim_C10_none_tftp (fun _ => false) "/w"
    (fun _ => { trace := [], file := none, bytes_sent := 0, block_start := 0,
                outcome := Outcome.success })
  exact ⟨h.1, h.2.2.2 "/nodir" (by decide) rfl⟩
